import Mathlib

/-!
Verification of the facter Ruby extension bridge (src/lib/src/ruby/module.cc)
and the scoped environment override (src/lib/src/util/scoped_env.cc),
as a shallow embedding in Lean 4.

Script (Ruby) values crossing the bridge are modelled by `RValue`; the
bridge's mutable state (search paths, loaded-file set, fact-handle registry,
all-loaded flag, native collection) by `ModuleState`; external collaborators
(file system, environment, process execution, plugin-file execution) by a
`World` record of functions.  Observable actions of the resolution algorithm
are recorded as an `Effect` trace.
-/

namespace Facter

/-- A script (Ruby) value as seen by the bridge: nil, boolean, integer,
symbol, string, or hash.  Hashes appear only as the `options` argument of
`add` and `execute`. -/
inductive RValue where
  | nil
  | bool (b : Bool)
  | int (n : Int)
  | sym (s : String)
  | str (s : String)
  | hash (entries : List (RValue × RValue))

namespace RValue

/-- api::is_string. -/
def is_string : RValue → Bool
  | .str _ => true
  | _ => false

/-- api::is_symbol. -/
def is_symbol : RValue → Bool
  | .sym _ => true
  | _ => false

/-- api::is_nil. -/
def is_nil : RValue → Bool
  | .nil => true
  | _ => false

end RValue

/-- Ruby String#downcase, as invoked by module::normalize via rb_funcall.
Implemented structurally over the character data so that concrete instances
evaluate in the kernel. -/
def downcase (s : String) : String :=
  String.mk (s.data.map Char.toLower)

/-- Modelled from the spec: api::to_string, the script-value-to-string
conversion (lib/src/ruby/api.cc is not under src/).  The bridge's in-source
call sites pass strings, symbols (the on_fail option in ruby_execute),
log messages and exception objects, so the conversion is total, following
Ruby's to_s. -/
def to_string : RValue → String
  | .nil => ""
  | .bool b => cond b "true" "false"
  | .int n => toString n
  | .sym s => s
  | .str s => s
  | .hash _ => ""

/-- Ruby-level key equality used by the bridged hash lookups
(rb_hash_lookup / Hash#delete).  The bridge only ever looks up symbol keys;
hash-valued keys are never equal to anything in this model. -/
def rvalEq : RValue → RValue → Bool
  | .nil, .nil => true
  | .bool a, .bool b => a == b
  | .int a, .int b => a == b
  | .sym a, .sym b => a == b
  | .str a, .str b => a == b
  | _, _ => false

/-- rb_hash_lookup: the value stored under a key, or nil when absent
(also nil when the receiver is not a hash). -/
def rb_hash_lookup (h : RValue) (key : RValue) : RValue :=
  match h with
  | .hash es =>
    match es.find? (fun p => rvalEq p.1 key) with
    | some p => p.2
    | none => .nil
  | _ => .nil

/-- Hash#delete as invoked from ruby_add: returns the value removed (nil when
absent) together with the hash without that key.  Non-hash receivers are left
unchanged. -/
def hash_delete (key : RValue) : RValue → RValue × RValue
  | .hash es =>
    match es.find? (fun p => rvalEq p.1 key) with
    | some p => (p.2, .hash (es.filter (fun q => !(rvalEq q.1 key))))
    | none => (.nil, .hash es)
  | v => (.nil, v)

/-- Modelled from the spec: the bridged state of a script-visible fact object
(lib/src/ruby/fact.cc is not under src/): a cached value (nil when unset)
and the names of its defined resolutions. -/
structure FactData where
  value : RValue
  resolutions : List String

/-- Observable actions performed by the fact-resolution algorithm. -/
inductive Effect where
  | dirScan (dir : String)
  | fullScan (dir : String)
  | collectionLookup (name : String)
  | execFile (path : String)
  deriving DecidableEq, Repr

/-- Failures signalled back to the embedded interpreter by the bridge. -/
inductive RubyError where
  | typeError (msg : String)
  | argError (msg : String)
  | executionFailure (cmd : String)
  | resolutionError (tag : Nat)
  deriving DecidableEq, Repr

/-- External collaborators of the bridge: file system, script load path,
process environment, native fact sources, plugin-file execution and
external-process execution.  Plugin-file execution is modelled as a
transformation of the fact-handle registry. -/
structure World where
  isRegularFile : String → Bool
  isDirectory : String → Bool
  canonical : String → Option String
  listRubyFiles : String → List String
  env : String → Option String
  pathSep : Char
  loadPath : List String
  defaultFacts : List (String × RValue)
  externalFacts : List String → List (String × RValue)
  runFile : String → List (String × FactData) → List (String × FactData)
  runCmd : String → Bool × String
  expandCommand : String → String

/-- The mutable state owned by facter::ruby::module. -/
structure ModuleState where
  searchPaths : List String
  additionalSearchPaths : List String
  externalSearchPaths : List String
  loadedFiles : List String
  facts : List (String × FactData)
  loadedAll : Bool
  collection : List (String × RValue)

/-- Result of module::load_fact: the state after the call, the trace of
observable actions, and either the found fact handle (identified by its
registry key), nil (none), or a raised error. -/
structure LookupResult where
  state : ModuleState
  effects : List Effect
  result : Except RubyError (Option String)

/-- module::normalize: a symbol is converted to its string form, and a string
is then lower-cased (the two tests are sequential, so a symbol's string form
is also lower-cased); any other value passes through unchanged. -/
def normalize (name : RValue) : RValue :=
  let name1 : RValue :=
    match name with
    | .sym s => .str s
    | v => v
  match name1 with
  | .str s => .str (downcase s)
  | v => v

/-- module::facts: lazily populates the native collection with default and
external facts on first access. -/
def populate_collection (w : World) (s : ModuleState) : ModuleState :=
  if s.collection.isEmpty then
    { s with collection := w.defaultFacts ++ w.externalFacts s.externalSearchPaths }
  else
    s

/-- module::create_fact: raises a TypeError unless the name is a string or a
symbol; otherwise normalizes it and returns the cached handle, creating (and
registering) a fresh fact after ensuring the collection is populated when the
name is not yet cached.  The handle is identified by its registry key. -/
def create_fact (w : World) (s : ModuleState) (name : RValue) :
    ModuleState × Except RubyError String :=
  if !name.is_string && !name.is_symbol then
    (s, .error (.typeError "expected a String or Symbol for fact name"))
  else
    let fact_name := to_string (normalize name)
    match s.facts.find? (fun p => p.1 == fact_name) with
    | some _ => (s, .ok fact_name)
    | none =>
      let s1 := populate_collection w s
      ({ s1 with facts := s1.facts ++ [(fact_name, ⟨.nil, []⟩)] }, .ok fact_name)

/-- module::load_file: a path already in the loaded-file set is skipped;
otherwise it is recorded in the set and executed through the interpreter
(any failure it raises is caught and logged, so execution always returns). -/
def load_file (w : World) (s : ModuleState) (path : String) :
    ModuleState × List Effect :=
  if path ∈ s.loadedFiles then
    (s, [])
  else
    ({ s with loadedFiles := path :: s.loadedFiles, facts := w.runFile path s.facts },
     [Effect.execFile path])

/-- The per-name directory pass of module::load_fact: every directory of the
search path is checked in order, and every one holding a regular file of the
matching name has that file loaded; no directory is skipped after a match. -/
def scan_for_fact (w : World) (filename : String) (dirs : List String)
    (s : ModuleState) : ModuleState × List Effect :=
  match dirs with
  | [] => (s, [])
  | d :: rest =>
    if w.isRegularFile (d ++ "/" ++ filename) then
      let r1 := load_file w s (d ++ "/" ++ filename)
      let r2 := scan_for_fact w filename rest r1.1
      (r2.1, Effect.dirScan d :: (r1.2 ++ r2.2))
    else
      let r2 := scan_for_fact w filename rest s
      (r2.1, Effect.dirScan d :: r2.2)

/-- Loads a list of files in order (the per-directory body of
module::load_facts). -/
def load_files_in (w : World) (files : List String) (s : ModuleState) :
    ModuleState × List Effect :=
  match files with
  | [] => (s, [])
  | f :: rest =>
    let r1 := load_file w s f
    let r2 := load_files_in w rest r1.1
    (r2.1, r1.2 ++ r2.2)

/-- The full-discovery directory walk of module::load_facts. -/
def full_scan (w : World) (dirs : List String) (s : ModuleState) :
    ModuleState × List Effect :=
  match dirs with
  | [] => (s, [])
  | d :: rest =>
    let r1 := load_files_in w (w.listRubyFiles d) s
    let r2 := full_scan w rest r1.1
    (r2.1, Effect.fullScan d :: (r1.2 ++ r2.2))

/-- module::load_facts: a no-op once the all-loaded flag is set; otherwise
loads every .rb file under every search directory and sets the flag. -/
def load_facts (w : World) (s : ModuleState) : ModuleState × List Effect :=
  if s.loadedAll then
    (s, [])
  else
    let r := full_scan w s.searchPaths s
    ({ r.1 with loadedAll := true }, r.2)

/-- The part of module::load_fact after the per-name pass: the (lazily
populated) native collection is consulted; on a hit a placeholder fact is
created from the native value, otherwise a full discovery pass runs and the
cache is rechecked. -/
def load_fact_tail (w : World) (s : ModuleState) (name : RValue)
    (fact_name : String) : LookupResult :=
  let s1 := populate_collection w s
  match s1.collection.find? (fun p => p.1 == fact_name) with
  | some _ =>
    let r := create_fact w s1 name
    match r.2 with
    | .ok k => ⟨r.1, [Effect.collectionLookup fact_name], .ok (some k)⟩
    | .error e => ⟨r.1, [Effect.collectionLookup fact_name], .error e⟩
  | none =>
    let r := load_facts w s1
    match r.1.facts.find? (fun p => p.1 == fact_name) with
    | some _ => ⟨r.1, Effect.collectionLookup fact_name :: r.2, .ok (some fact_name)⟩
    | none => ⟨r.1, Effect.collectionLookup fact_name :: r.2, .ok none⟩

/-- module::load_fact: normalize the name, return the cached handle on a hit;
before full discovery has run, scan every search directory for a file named
after the fact and recheck the cache; then consult the native collection,
run full discovery if still unresolved, and finally recheck the cache. -/
def load_fact (w : World) (s : ModuleState) (name : RValue) : LookupResult :=
  let name1 := normalize name
  let fact_name := to_string name1
  match s.facts.find? (fun p => p.1 == fact_name) with
  | some _ => ⟨s, [], .ok (some fact_name)⟩
  | none =>
    if s.loadedAll then
      load_fact_tail w s name1 fact_name
    else
      let r1 := scan_for_fact w (fact_name ++ ".rb") s.searchPaths s
      match r1.1.facts.find? (fun p => p.1 == fact_name) with
      | some _ => ⟨r1.1, r1.2, .ok (some fact_name)⟩
      | none =>
        let r2 := load_fact_tail w r1.1 name1 fact_name
        ⟨r2.state, r1.2 ++ r2.effects, r2.result⟩

/-- module::ruby_fact (the fact and [] entry points): returns the handle
itself, loading on demand. -/
def ruby_fact (w : World) (s : ModuleState) (name : RValue) : LookupResult :=
  load_fact w s name

/-- Replaces the data stored under a registry key (a mutation of the fact
object reached through its handle). -/
def update_fact (facts : List (String × FactData)) (key : String)
    (fd : FactData) : List (String × FactData) :=
  facts.map (fun p => if p.1 == key then (p.1, fd) else p)

/-- module::ruby_add for a valid arity, after create_fact has produced the
handle: the optional resolution name is deleted from the options hash, the
resolution is defined and the block evaluated (abstracted as
defineResolution, which may fail with a jump tag); on failure the fact's
cached value is forced to nil before the tag is re-signalled. -/
def ruby_add_core (w : World) (s : ModuleState)
    (defineResolution : RValue → RValue → FactData → Except Nat FactData)
    (name : RValue) (options : RValue) : ModuleState × Except RubyError String :=
  let r := create_fact w s name
  match r.2 with
  | .error e => (r.1, .error e)
  | .ok key =>
    let s1 := r.1
    let rn :=
      if options.is_nil then (RValue.nil, options)
      else hash_delete (.sym "name") options
    let fd := (((s1.facts.find? (fun p => p.1 == key)).map (fun p => p.2)).getD ⟨.nil, []⟩)
    match defineResolution rn.1 rn.2 fd with
    | .ok fd1 =>
      ({ s1 with facts := update_fact s1.facts key fd1 }, .ok key)
    | .error tag =>
      ({ s1 with facts := update_fact s1.facts key { fd with value := .nil } },
       .error (.resolutionError tag))

/-- module::ruby_add: checks the arity (one or two arguments), then runs the
core.  The absent options argument is nil. -/
def ruby_add (w : World) (s : ModuleState)
    (defineResolution : RValue → RValue → FactData → Except Nat FactData)
    (args : List RValue) : ModuleState × Except RubyError String :=
  match args with
  | [name] => ruby_add_core w s defineResolution name .nil
  | [name, options] => ruby_add_core w s defineResolution name options
  | _ => (s, .error (.argError ("wrong number of arguments (" ++ toString args.length ++ " for 2)")))

/-- module::execute_command: the command is interpolated and run through a
shell with combined output capture; on success the captured text is
returned, on failure either an ExecutionFailure carrying the command text is
raised or the caller-supplied default is returned. -/
def execute_command (w : World) (command : String) (failure_default : RValue)
    (raiseOnFail : Bool) : Except RubyError RValue :=
  let result := w.runCmd (w.expandCommand command)
  if result.1 then
    .ok (.str result.2)
  else if raiseOnFail then
    .error (.executionFailure command)
  else
    .ok failure_default

/-- module::ruby_execute: with one argument, failures always raise; with two,
the on_fail option selects the policy: the symbol :raise raises, any other
value is returned as the default on failure.  Other arities are an
ArgumentError. -/
def ruby_execute (w : World) (args : List RValue) : Except RubyError RValue :=
  match args with
  | [cmd] => execute_command w (to_string cmd) .nil true
  | [cmd, opts] =>
    let option := rb_hash_lookup opts (.sym "on_fail")
    if option.is_symbol && (to_string option == "raise") then
      execute_command w (to_string cmd) .nil true
    else
      execute_command w (to_string cmd) option false
  | _ => (.error (.argError ("wrong number of arguments (" ++ toString args.length ++ " for 2)")))

/-- module::ruby_search: each string argument is appended verbatim to the
additional search paths and, when it canonicalizes, its canonical form is
appended to the search path set; non-string arguments are skipped. -/
def ruby_search (w : World) (s : ModuleState) (args : List RValue) : ModuleState :=
  match args with
  | [] => s
  | a :: rest =>
    if a.is_string then
      let str := to_string a
      let s1 := { s with additionalSearchPaths := s.additionalSearchPaths ++ [str] }
      let s2 :=
        match w.canonical str with
        | none => s1
        | some dir => { s1 with searchPaths := s1.searchPaths ++ [dir] }
      ruby_search w s2 rest
    else
      ruby_search w s rest

/-- Modelled from the spec: facter::util::split on the path-list separator
(lib/src/util/string.cc is not under src/); splits the character data on the
separator. -/
def split_chars (sep : Char) : List Char → List (List Char)
  | [] => [[]]
  | c :: rest =>
    let r := split_chars sep rest
    if c == sep then
      [] :: r
    else
      match r with
      | [] => [[c]]
      | g :: gs => (c :: g) :: gs

/-- The FACTERLIB environment variable split on the path separator. -/
def facterlib_paths (w : World) : List String :=
  match w.env "FACTERLIB" with
  | some v => (split_chars w.pathSep v.data).map String.mk
  | none => []

/-- The load-path scan of module::initialize_search_paths: each load-path
entry is canonicalized (failures skipped), entries hosting facter.rb are
skipped, and the entry's facter subdirectory is kept when it is a
directory. -/
def conventional_dirs (w : World) : List String :=
  w.loadPath.filterMap (fun directory =>
    match w.canonical directory with
    | none => none
    | some dir =>
      if w.isRegularFile (dir ++ "/facter.rb") then none
      else if w.isDirectory (dir ++ "/facter") then some (dir ++ "/facter")
      else none)

/-- The candidate directories accumulated by module::initialize_search_paths
before the final canonical transform: load-path facter subdirectories, then
FACTERLIB entries, then the explicitly given paths. -/
def search_path_candidates (w : World) (paths : List String) : List String :=
  conventional_dirs w ++ facterlib_paths w ++ paths

/-- std::remove_if over the search-path vector with its result discarded (the
source never erases): retained elements are shifted to the front and the
vector keeps its size, the tail being left-over (moved-from, here empty)
strings. -/
def remove_if_empty (l : List String) : List String :=
  l.filter (fun x => x != "") ++
    List.replicate (l.length - (l.filter (fun x => x != "")).length) ""

/-- module::initialize_search_paths: gathers the candidate directories, maps
each through canonicalization (failures become empty strings, as the
transform returns {}), then applies std::remove_if without erasing. -/
def init_search_paths (w : World) (paths : List String) : List String :=
  remove_if_empty
    ((search_path_candidates w paths).map (fun d =>
      match w.canonical d with
      | some c => c
      | none => ""))

/-- module::ruby_reset: discards cached fact handles, recomputes the default
search paths (discarding runtime additions), clears external search paths,
the loaded-file set and the all-loaded flag. -/
def ruby_reset (w : World) (s : ModuleState) : ModuleState :=
  { s with facts := [],
           searchPaths := init_search_paths w [],
           additionalSearchPaths := [],
           externalSearchPaths := [],
           loadedAll := false,
           loadedFiles := [] }

/-- The process environment, a map from variable names to optional values. -/
def Env : Type := String → Option String

/-- environment::set. -/
def env_set (e : Env) (k v : String) : Env :=
  fun x => if x = k then some v else e x

/-- environment::clear. -/
def env_clear (e : Env) (k : String) : Env :=
  fun x => if x = k then none else e x

/-- scoped_env::scoped_env: records the variable's prior state (name and old
value, if any) and sets it to the new value. -/
def scoped_env_acquire (e : Env) (var val : String) :
    (String × Option String) × Env :=
  ((var, e var), env_set e var val)

/-- scoped_env::restore: sets the variable back to its old value when one was
recorded, otherwise clears it. -/
def scoped_env_restore (old : String × Option String) (e : Env) : Env :=
  match old.2 with
  | some v => env_set e old.1 v
  | none => env_clear e old.1

/-- Projection extracting the directory of a per-name scan effect. -/
def effDirScan : Effect → Option String
  | .dirScan d => some d
  | _ => none

/-- A world where every collaborator query comes back empty, every command
fails, and plugin files have no effect. -/
def baseWorld : World :=
  { isRegularFile := fun _ => false
    isDirectory := fun _ => false
    canonical := fun _ => none
    listRubyFiles := fun _ => []
    env := fun _ => none
    pathSep := ':'
    loadPath := []
    defaultFacts := []
    externalFacts := fun _ => []
    runFile := fun _ f => f
    runCmd := fun _ => (false, "")
    expandCommand := fun c => c }

/-- A freshly constructed module state with no search paths. -/
def emptyState : ModuleState :=
  { searchPaths := []
    additionalSearchPaths := []
    externalSearchPaths := []
    loadedFiles := []
    facts := []
    loadedAll := false
    collection := [] }

/-- A world whose file system holds os.rb in the directories /d1 and /d2. -/
def W1 : World :=
  { baseWorld with isRegularFile := fun q => q == "/d1/os.rb" || q == "/d2/os.rb" }

/-- A state whose search path set holds /d1 then /d2. -/
def S1 : ModuleState := { emptyState with searchPaths := ["/d1", "/d2"] }

/-- A world where the FACTERLIB variable repeats a canonicalizable directory
and then names a non-canonicalizable one. -/
def W6 : World :=
  { baseWorld with
    canonical := fun d => if d == "/a" then some "/a" else none
    env := fun n => if n == "FACTERLIB" then some "/a:/a:/bad" else none }

/-- A world where every path canonicalizes to the same directory. -/
def W6a : World := { baseWorld with canonical := fun _ => some "/x" }

/-- A state past full discovery whose native collection knows one fact named
x, so that a lookup of any other name misses everywhere. -/
def S7 : ModuleState :=
  { emptyState with loadedAll := true, collection := [("x", RValue.str "1")] }

/-- A state past full discovery with an uncached fact memory present in the
native collection and a search directory still configured. -/
def S8 : ModuleState :=
  { emptyState with
    searchPaths := ["/dir"]
    loadedAll := true
    collection := [("memory", RValue.str "4096")] }

section Lemmas

variable (w : World)

theorem load_file_of_mem {s : ModuleState} {p : String} (h : p ∈ s.loadedFiles) :
    load_file w s p = (s, []) := by
  simp [load_file, h]

theorem load_file_of_not_mem {s : ModuleState} {p : String} (h : p ∉ s.loadedFiles) :
    load_file w s p =
      ({ s with loadedFiles := p :: s.loadedFiles, facts := w.runFile p s.facts },
       [Effect.execFile p]) := by
  simp [load_file, h]

theorem load_file_loaded_mono {s : ModuleState} {p q : String}
    (h : q ∈ s.loadedFiles) : q ∈ (load_file w s p).1.loadedFiles := by
  by_cases hp : p ∈ s.loadedFiles
  · rw [load_file_of_mem w hp]; exact h
  · rw [load_file_of_not_mem w hp]; exact List.mem_cons_of_mem _ h

theorem load_file_self_mem (s : ModuleState) (p : String) :
    p ∈ (load_file w s p).1.loadedFiles := by
  by_cases hp : p ∈ s.loadedFiles
  · rw [load_file_of_mem w hp]; exact hp
  · rw [load_file_of_not_mem w hp]; exact List.mem_cons_self _ _

theorem load_file_new_exec {s : ModuleState} {p q : String}
    (hq : q ∉ s.loadedFiles) (hq2 : q ∈ (load_file w s p).1.loadedFiles) :
    Effect.execFile q ∈ (load_file w s p).2 := by
  by_cases hp : p ∈ s.loadedFiles
  · rw [load_file_of_mem w hp] at hq2; exact absurd hq2 hq
  · rw [load_file_of_not_mem w hp] at hq2 ⊢
    rcases List.mem_cons.mp hq2 with h | h
    · simp [h]
    · exact absurd h hq

theorem scan_dirScans (fn : String) (dirs : List String) (s : ModuleState) :
    ((scan_for_fact w fn dirs s).2).filterMap effDirScan = dirs := by
  induction dirs generalizing s with
  | nil => simp [scan_for_fact]
  | cons d rest ih =>
    by_cases hd : w.isRegularFile (d ++ "/" ++ fn)
    · have hload : ((load_file w s (d ++ "/" ++ fn)).2).filterMap effDirScan = [] := by
        by_cases hp : (d ++ "/" ++ fn) ∈ s.loadedFiles
        · rw [load_file_of_mem w hp]; rfl
        · rw [load_file_of_not_mem w hp]; rfl
      simp [scan_for_fact, hd, effDirScan, List.filterMap_append, hload, ih]
    · simp [scan_for_fact, hd, effDirScan, ih]

theorem scan_loaded_mono (fn : String) (dirs : List String) {s : ModuleState}
    {q : String} (h : q ∈ s.loadedFiles) :
    q ∈ (scan_for_fact w fn dirs s).1.loadedFiles := by
  induction dirs generalizing s with
  | nil => simpa [scan_for_fact] using h
  | cons d rest ih =>
    by_cases hd : w.isRegularFile (d ++ "/" ++ fn)
    · simpa [scan_for_fact, hd] using ih (load_file_loaded_mono w h)
    · simpa [scan_for_fact, hd] using ih h

theorem scan_match_loaded (fn : String) (dirs : List String) (s : ModuleState)
    {d : String} (hd : d ∈ dirs) (hm : w.isRegularFile (d ++ "/" ++ fn) = true) :
    (d ++ "/" ++ fn) ∈ (scan_for_fact w fn dirs s).1.loadedFiles := by
  induction dirs generalizing s with
  | nil => cases hd
  | cons d0 rest ih =>
    rcases List.mem_cons.mp hd with h | h
    · subst h
      simp only [scan_for_fact, hm, if_true]
      exact scan_loaded_mono w fn rest (load_file_self_mem w s (d ++ "/" ++ fn))
    · by_cases h0 : w.isRegularFile (d0 ++ "/" ++ fn)
      · simpa [scan_for_fact, h0] using ih _ h
      · simpa [scan_for_fact, h0] using ih _ h

theorem scan_fresh_exec (fn : String) (dirs : List String) {s : ModuleState}
    {p : String} (hp : p ∉ s.loadedFiles)
    (hp2 : p ∈ (scan_for_fact w fn dirs s).1.loadedFiles) :
    Effect.execFile p ∈ (scan_for_fact w fn dirs s).2 := by
  induction dirs generalizing s with
  | nil => exact absurd (by simpa [scan_for_fact] using hp2) hp
  | cons d rest ih =>
    by_cases hd : w.isRegularFile (d ++ "/" ++ fn)
    · simp only [scan_for_fact, hd, if_true] at hp2 ⊢
      by_cases hmid : p ∈ (load_file w s (d ++ "/" ++ fn)).1.loadedFiles
      · have : Effect.execFile p ∈ (load_file w s (d ++ "/" ++ fn)).2 :=
          load_file_new_exec w hp hmid
        simp [this]
      · have := ih hmid hp2
        simp [this]
    · simp only [scan_for_fact, hd, if_false] at hp2 ⊢
      simp [ih hp hp2]

theorem populate_facts (s : ModuleState) :
    (populate_collection w s).facts = s.facts := by
  unfold populate_collection; split <;> rfl

theorem populate_loadedFiles (s : ModuleState) :
    (populate_collection w s).loadedFiles = s.loadedFiles := by
  unfold populate_collection; split <;> rfl

theorem populate_loadedAll (s : ModuleState) :
    (populate_collection w s).loadedAll = s.loadedAll := by
  unfold populate_collection; split <;> rfl

theorem populate_searchPaths (s : ModuleState) :
    (populate_collection w s).searchPaths = s.searchPaths := by
  unfold populate_collection; split <;> rfl

theorem create_fact_valid {name : RValue} (s : ModuleState)
    (h : (name.is_string || name.is_symbol) = true) :
    (create_fact w s name).2 = .ok (to_string (normalize name)) ∧
    ((create_fact w s name).1.facts.find?
      (fun p => p.1 == to_string (normalize name))).isSome ∧
    (create_fact w s name).1.loadedFiles = s.loadedFiles ∧
    (create_fact w s name).1.loadedAll = s.loadedAll := by
  have hguard : (!name.is_string && !name.is_symbol) = false := by
    rcases Bool.or_eq_true_iff.mp h with h1 | h1 <;> simp [h1]
  unfold create_fact
  rw [hguard]
  simp only [Bool.false_eq_true, if_false]
  cases hfind : s.facts.find? (fun p => p.1 == to_string (normalize name)) with
  | some e => simp [hfind]
  | none =>
    have : ((populate_collection w s).facts ++
        [(to_string (normalize name), (⟨.nil, []⟩ : FactData))]).find?
          (fun p => p.1 == to_string (normalize name)) =
        some (to_string (normalize name), (⟨.nil, []⟩ : FactData)) := by
      rw [List.find?_append, populate_facts, hfind]
      simp [List.find?]
    simp [hfind, this, populate_loadedFiles, populate_loadedAll]

theorem create_fact_loaded_mono {s : ModuleState} {q : String} (name : RValue)
    (h : q ∈ s.loadedFiles) : q ∈ (create_fact w s name).1.loadedFiles := by
  unfold create_fact
  split
  · exact h
  · cases hfind : s.facts.find? (fun p => p.1 == to_string (normalize name)) with
    | some e => simp [hfind]; exact h
    | none => simp [hfind, populate_loadedFiles]; exact h

theorem load_files_in_loaded_mono (files : List String) {s : ModuleState}
    {q : String} (h : q ∈ s.loadedFiles) :
    q ∈ (load_files_in w files s).1.loadedFiles := by
  induction files generalizing s with
  | nil => simpa [load_files_in] using h
  | cons f rest ih => simpa [load_files_in] using ih (load_file_loaded_mono w h)

theorem full_scan_loaded_mono (dirs : List String) {s : ModuleState}
    {q : String} (h : q ∈ s.loadedFiles) :
    q ∈ (full_scan w dirs s).1.loadedFiles := by
  induction dirs generalizing s with
  | nil => simpa [full_scan] using h
  | cons d rest ih =>
    simpa [full_scan] using ih (load_files_in_loaded_mono w _ h)

theorem load_facts_loaded_mono {s : ModuleState} {q : String}
    (h : q ∈ s.loadedFiles) : q ∈ (load_facts w s).1.loadedFiles := by
  unfold load_facts
  split
  · exact h
  · simpa using full_scan_loaded_mono w _ h

theorem load_facts_of_loadedAll {s : ModuleState} (h : s.loadedAll = true) :
    load_facts w s = (s, []) := by
  simp [load_facts, h]

theorem load_fact_tail_loaded_mono {s : ModuleState} {q : String}
    (name : RValue) (fact_name : String) (h : q ∈ s.loadedFiles) :
    q ∈ (load_fact_tail w s name fact_name).state.loadedFiles := by
  have hpop : q ∈ (populate_collection w s).loadedFiles := by
    rw [populate_loadedFiles]; exact h
  simp only [load_fact_tail]
  cases hfind : List.find? (fun p => p.1 == fact_name)
      (populate_collection w s).collection with
  | some e =>
    simp only [hfind]
    cases hc : (create_fact w (populate_collection w s) name).2 with
    | ok k => simp only [hc]; exact create_fact_loaded_mono w name hpop
    | error e2 => simp only [hc]; exact create_fact_loaded_mono w name hpop
  | none =>
    simp only [hfind]
    cases hf2 : List.find? (fun p => p.1 == fact_name)
        (load_facts w (populate_collection w s)).1.facts with
    | some e => simp only [hf2]; exact load_facts_loaded_mono w hpop
    | none => simp only [hf2]; exact load_facts_loaded_mono w hpop

theorem find?_update_fact {l : List (String × FactData)} {k : String}
    {e : String × FactData} (h : l.find? (fun p => p.1 == k) = some e)
    (fd : FactData) :
    (update_fact l k fd).find? (fun p => p.1 == k) = some (k, fd) := by
  induction l with
  | nil => simp at h
  | cons a t ih =>
    by_cases hb : (a.1 == k) = true
    · have ha : a.1 = k := by simpa using hb
      simp [update_fact, List.find?_cons, hb, ha]
    · rw [List.find?_cons_of_neg _ (by simpa using hb)] at h
      have htail := ih h
      simp only [update_fact, List.map_cons] at htail ⊢
      rw [if_neg (by simpa using hb), List.find?_cons_of_neg _ (by simpa using hb)]
      exact htail

theorem normalize_other {v : RValue} (hsym : v.is_symbol = false)
    (hstr : v.is_string = false) : normalize v = v := by
  cases v
  · rfl
  · rfl
  · rfl
  · simp [RValue.is_symbol] at hsym
  · simp [RValue.is_string] at hstr
  · rfl

theorem filter_map_canon (l : List String)
    (hne : ∀ d c, w.canonical d = some c → c ≠ "") :
    (l.map (fun d =>
      match w.canonical d with
      | some c => c
      | none => "")).filter (fun x => x != "")
      = l.filterMap w.canonical := by
  induction l with
  | nil => rfl
  | cons d t ih =>
    cases hc : w.canonical d with
    | none => simp [hc, ih]
    | some c =>
      have hcne : (c != "") = true := by simpa using hne d c hc
      simp [hc, hcne, ih, List.filterMap_cons]

theorem ruby_search_filter (args : List RValue) (s : ModuleState) :
    ruby_search w s args = ruby_search w s (args.filter RValue.is_string) := by
  induction args generalizing s with
  | nil => rfl
  | cons a rest ih =>
    by_cases ha : a.is_string = true
    · rw [List.filter_cons_of_pos ha]
      simp only [ruby_search, ha, if_true]
      cases hc : w.canonical (to_string a) <;> simp only [hc] <;> exact ih _
    · rw [List.filter_cons_of_neg (by simpa using ha)]
      simp only [ruby_search, ha, if_false]
      exact ih s

theorem ruby_search_additional (args : List RValue) (s : ModuleState) :
    (ruby_search w s args).additionalSearchPaths
      = s.additionalSearchPaths ++ (args.filter RValue.is_string).map to_string := by
  induction args generalizing s with
  | nil => simp [ruby_search]
  | cons a rest ih =>
    by_cases ha : a.is_string = true
    · rw [List.filter_cons_of_pos ha]
      simp only [ruby_search, ha, if_true]
      cases hc : w.canonical (to_string a) <;>
        simp only [hc] <;> rw [ih] <;> simp
    · rw [List.filter_cons_of_neg (by simpa using ha)]
      simp only [ruby_search, ha, if_false]
      exact ih s

theorem ruby_search_paths (args : List RValue) (s : ModuleState) :
    (ruby_search w s args).searchPaths
      = s.searchPaths ++ (args.filter RValue.is_string).filterMap
          (fun a => w.canonical (to_string a)) := by
  induction args generalizing s with
  | nil => simp [ruby_search]
  | cons a rest ih =>
    by_cases ha : a.is_string = true
    · rw [List.filter_cons_of_pos ha]
      simp only [ruby_search, ha, if_true]
      cases hc : w.canonical (to_string a) <;>
        simp only [hc] <;> rw [ih] <;> simp [List.filterMap_cons, hc]
    · rw [List.filter_cons_of_neg (by simpa using ha)]
      simp only [ruby_search, ha, Bool.false_eq_true, if_false]
      exact ih s

end Lemmas

/-- C2: loading the same file path a second time within one session executes
it at most once: load_file returns without executing when the path is already
in the loaded-file set, and otherwise records the path in the set and
executes the file through the interpreter, so an immediate reload is a no-op
and the execution side effect is observed exactly once. -/
theorem c2_load_file_at_most_once (w : World) (s : ModuleState) (p : String)
    (h : p ∉ s.loadedFiles) :
    (load_file w s p).2 = [Effect.execFile p] ∧
    (load_file w s p).1.loadedFiles = p :: s.loadedFiles ∧
    (load_file w s p).1.facts = w.runFile p s.facts ∧
    load_file w (load_file w s p).1 p = ((load_file w s p).1, []) := by
  rw [load_file_of_not_mem w h]
  exact ⟨rfl, rfl, rfl, load_file_of_mem w (List.mem_cons_self _ _)⟩

/-- Witness for C2 at a concrete fresh path. -/
theorem c2_witness :
    ("f.rb" ∉ emptyState.loadedFiles) ∧
    ((load_file baseWorld emptyState "f.rb").2 = [Effect.execFile "f.rb"] ∧
     (load_file baseWorld emptyState "f.rb").1.loadedFiles
        = "f.rb" :: emptyState.loadedFiles ∧
     (load_file baseWorld emptyState "f.rb").1.facts
        = baseWorld.runFile "f.rb" emptyState.facts ∧
     load_file baseWorld (load_file baseWorld emptyState "f.rb").1 "f.rb"
        = ((load_file baseWorld emptyState "f.rb").1, [])) :=
  ⟨by decide, c2_load_file_at_most_once baseWorld emptyState "f.rb" (by decide)⟩

/-- C4: when a command fails, the two-argument execute raises an
ExecutionFailure carrying the command when the on_fail option is the symbol
:raise, and returns the on_fail option value itself when it is any other
value; the one-argument form always raises on failure. -/
theorem c4_execute_on_fail_policy (w : World) (cmd : String) (v : RValue)
    (hfail : (w.runCmd (w.expandCommand cmd)).1 = false)
    (hv : ¬(v.is_symbol = true ∧ to_string v = "raise")) :
    ruby_execute w [RValue.str cmd, RValue.hash [(RValue.sym "on_fail", RValue.sym "raise")]]
      = .error (.executionFailure cmd) ∧
    ruby_execute w [RValue.str cmd, RValue.hash [(RValue.sym "on_fail", v)]]
      = .ok v ∧
    ruby_execute w [RValue.str cmd] = .error (.executionFailure cmd) := by
  have hlook : ∀ x : RValue,
      rb_hash_lookup (.hash [(.sym "on_fail", x)]) (.sym "on_fail") = x := by
    intro x; simp [rb_hash_lookup, rvalEq, List.find?]
  have hnraise : (v.is_symbol && (to_string v == "raise")) = false := by
    cases hs : v.is_symbol with
    | false => simp
    | true =>
      have : to_string v ≠ "raise" := fun hh => hv ⟨hs, hh⟩
      simp [this]
  refine ⟨?_, ?_, ?_⟩
  · simp [ruby_execute, hlook, RValue.is_symbol, to_string, execute_command, hfail]
  · simp only [ruby_execute, hlook, hnraise, Bool.false_eq_true, if_false]
    simp [execute_command, hfail, to_string]
  · simp [ruby_execute, to_string, execute_command, hfail]

/-- Witness for C4 at a failing command with on_fail = "default". -/
theorem c4_witness :
    ((baseWorld.runCmd (baseWorld.expandCommand "false")).1 = false) ∧
    (ruby_execute baseWorld
        [RValue.str "false", RValue.hash [(RValue.sym "on_fail", RValue.sym "raise")]]
      = .error (.executionFailure "false") ∧
     ruby_execute baseWorld
        [RValue.str "false", RValue.hash [(RValue.sym "on_fail", RValue.str "default")]]
      = .ok (RValue.str "default") ∧
     ruby_execute baseWorld [RValue.str "false"]
      = .error (.executionFailure "false")) :=
  ⟨rfl, c4_execute_on_fail_policy baseWorld "false" (RValue.str "default") rfl
    (by intro hc; exact absurd hc.1 (by decide))⟩

/-- C5: fact-name lookup is case-insensitive and accepts symbols and strings:
the normalizer sends a symbol through its string form to the lower-cased
string, lower-cases a string, and leaves any other value unchanged, so a
fact added under a symbol spelling and looked up under a differently cased
string spelling hits the same registry entry (a pure cache hit). -/
theorem c5_name_lookup_case_insensitive (w : World) (st : ModuleState)
    (s t : String) (v : RValue) (hst : downcase s = downcase t)
    (hsym : v.is_symbol = false) (hstr : v.is_string = false) :
    normalize (RValue.sym s) = RValue.str (downcase s) ∧
    normalize (RValue.str t) = RValue.str (downcase t) ∧
    normalize v = v ∧
    (create_fact w st (RValue.sym s)).2 = .ok (downcase t) ∧
    load_fact w (create_fact w st (RValue.sym s)).1 (RValue.str t)
      = ⟨(create_fact w st (RValue.sym s)).1, [], .ok (some (downcase t))⟩ := by
  obtain ⟨hres, hsome, -, -⟩ :=
    @create_fact_valid w (RValue.sym s) st (by rfl)
  have hkey : to_string (normalize (RValue.sym s)) = downcase s := rfl
  rw [hkey] at hres hsome
  obtain ⟨e, he⟩ := Option.isSome_iff_exists.mp hsome
  rw [hst] at hres he
  refine ⟨rfl, rfl, normalize_other hsym hstr, hres, ?_⟩
  have hkey2 : to_string (normalize (RValue.str t)) = downcase t := rfl
  simp only [load_fact, hkey2, he]

/-- Witness for C5 with the symbol :Foo and the string "foo". -/
theorem c5_witness :
    (downcase "Foo" = downcase "foo") ∧
    (normalize (RValue.sym "Foo") = RValue.str (downcase "Foo") ∧
     normalize (RValue.str "foo") = RValue.str (downcase "foo") ∧
     normalize (RValue.int 3) = RValue.int 3 ∧
     (create_fact baseWorld emptyState (RValue.sym "Foo")).2 = .ok (downcase "foo") ∧
     load_fact baseWorld (create_fact baseWorld emptyState (RValue.sym "Foo")).1
        (RValue.str "foo")
      = ⟨(create_fact baseWorld emptyState (RValue.sym "Foo")).1, [],
         .ok (some (downcase "foo"))⟩) :=
  ⟨by decide, c5_name_lookup_case_insensitive baseWorld emptyState "Foo" "foo"
    (RValue.int 3) (by decide) rfl rfl⟩

/-- C9: acquiring a scoped override records the variable's prior state and
sets the variable to the new value, and releasing restores the environment
exactly to its pre-acquisition state (the old value when the variable was
set, cleared entirely when it was unset): the acquire-then-release round
trip is the identity on the environment. -/
theorem c9_scoped_env_round_trip (e : Env) (var val : String) :
    (scoped_env_acquire e var val).1 = (var, e var) ∧
    (scoped_env_acquire e var val).2 var = some val ∧
    scoped_env_restore (scoped_env_acquire e var val).1
      (scoped_env_acquire e var val).2 = e := by
  refine ⟨rfl, by simp [scoped_env_acquire, env_set], ?_⟩
  funext x
  simp only [scoped_env_acquire, scoped_env_restore]
  cases he : e var with
  | some v =>
    by_cases hx : x = var
    · subst hx; simp [env_set, he]
    · simp [env_set, hx]
  | none =>
    by_cases hx : x = var
    · subst hx; simp [env_clear, env_set, he]
    · simp [env_clear, env_set, hx]

/-- C10: each non-string argument of search is skipped silently, landing in
neither the additional search paths nor the search path set, while the
string arguments are still processed in order (verbatim into the additional
paths, canonicalized into the search path set); the call never fails. -/
theorem c10_search_skips_non_strings (w : World) (s : ModuleState)
    (args : List RValue) :
    ruby_search w s args = ruby_search w s (args.filter RValue.is_string) ∧
    (ruby_search w s args).additionalSearchPaths
      = s.additionalSearchPaths ++ (args.filter RValue.is_string).map to_string ∧
    (ruby_search w s args).searchPaths
      = s.searchPaths ++ (args.filter RValue.is_string).filterMap
          (fun a => w.canonical (to_string a)) :=
  ⟨ruby_search_filter w args s, ruby_search_additional w args s,
   ruby_search_paths w args s⟩

/-- C1: for an uncached fact name looked up before full discovery has run,
load_fact's per-name pass checks every directory of the search path set in
order (the scan's directory trace is the whole ordered search path list),
and every directory holding a file named after the fact has that file
loaded — recorded in the loaded-file set and, when not already loaded,
executed — not only the first match found. -/
theorem c1_per_name_scan_loads_all_matches (w : World) (s : ModuleState)
    (name : RValue) (fn p d : String)
    (hf : fn = to_string (normalize name) ++ ".rb")
    (hp : p = d ++ "/" ++ fn)
    (hAll : s.loadedAll = false)
    (hMiss : s.facts.find? (fun q => q.1 == to_string (normalize name)) = none)
    (hd : d ∈ s.searchPaths)
    (hmatch : w.isRegularFile p = true)
    (hfresh : p ∉ s.loadedFiles) :
    (∃ rest, (load_fact w s name).effects
        = (scan_for_fact w fn s.searchPaths s).2 ++ rest) ∧
    ((scan_for_fact w fn s.searchPaths s).2.filterMap effDirScan = s.searchPaths) ∧
    p ∈ (scan_for_fact w fn s.searchPaths s).1.loadedFiles ∧
    Effect.execFile p ∈ (scan_for_fact w fn s.searchPaths s).2 ∧
    p ∈ (load_fact w s name).state.loadedFiles := by
  subst hf; subst hp
  have hmem := scan_match_loaded w (to_string (normalize name) ++ ".rb")
    s.searchPaths s hd hmatch
  have hexec := scan_fresh_exec w (to_string (normalize name) ++ ".rb")
    s.searchPaths hfresh hmem
  refine ⟨?_, scan_dirScans w _ s.searchPaths s, hmem, hexec, ?_⟩
  · simp only [load_fact, hMiss, hAll, Bool.false_eq_true, if_false]
    cases h2 : (scan_for_fact w (to_string (normalize name) ++ ".rb")
        s.searchPaths s).1.facts.find?
          (fun q => q.1 == to_string (normalize name)) with
    | some e => exact ⟨[], by simp [h2]⟩
    | none =>
      exact ⟨(load_fact_tail w (scan_for_fact w (to_string (normalize name) ++ ".rb")
          s.searchPaths s).1 (normalize name) (to_string (normalize name))).effects,
        by simp [h2]⟩
  · simp only [load_fact, hMiss, hAll, Bool.false_eq_true, if_false]
    cases h2 : (scan_for_fact w (to_string (normalize name) ++ ".rb")
        s.searchPaths s).1.facts.find?
          (fun q => q.1 == to_string (normalize name)) with
    | some e => simpa [h2] using hmem
    | none =>
      simp only [h2]
      exact load_fact_tail_loaded_mono w _ _ hmem

/-- Witness for C1: two directories both hold os.rb; the one checked second
is also scanned and its file loaded and executed. -/
theorem c1_witness :
    ("/d2" ∈ S1.searchPaths) ∧ (W1.isRegularFile "/d2/os.rb" = true) ∧
    ((∃ rest, (load_fact W1 S1 (RValue.str "os")).effects
        = (scan_for_fact W1 "os.rb" S1.searchPaths S1).2 ++ rest) ∧
     ((scan_for_fact W1 "os.rb" S1.searchPaths S1).2.filterMap effDirScan
        = S1.searchPaths) ∧
     "/d2/os.rb" ∈ (scan_for_fact W1 "os.rb" S1.searchPaths S1).1.loadedFiles ∧
     Effect.execFile "/d2/os.rb" ∈ (scan_for_fact W1 "os.rb" S1.searchPaths S1).2 ∧
     "/d2/os.rb" ∈ (load_fact W1 S1 (RValue.str "os")).state.loadedFiles) :=
  ⟨by decide, by decide,
   c1_per_name_scan_loads_all_matches W1 S1 (RValue.str "os") "os.rb"
     "/d2/os.rb" "/d2" rfl rfl rfl rfl (by decide) (by decide) (by decide)⟩

/-- C3: for add with a valid name, a failure raised while defining the
resolution or evaluating the block forces the fact's cached value to nil
before the failure is re-signalled to the caller; without a failure, add
returns the fact handle. -/
theorem c3_add_failure_forces_nil (w : World) (s : ModuleState)
    (name options : RValue) (tag : Nat)
    (defFail defOk : RValue → RValue → FactData → Except Nat FactData)
    (g : RValue → RValue → FactData → FactData)
    (hname : (name.is_string || name.is_symbol) = true)
    (hfail : ∀ rn op fd, defFail rn op fd = .error tag)
    (hok : ∀ rn op fd, defOk rn op fd = .ok (g rn op fd)) :
    (ruby_add w s defFail [name, options]).2 = .error (.resolutionError tag) ∧
    (((ruby_add w s defFail [name, options]).1.facts.find?
        (fun p => p.1 == to_string (normalize name))).map (fun p => p.2.value))
      = some RValue.nil ∧
    (ruby_add w s defOk [name, options]).2 = .ok (to_string (normalize name)) := by
  obtain ⟨hres, hsome, -, -⟩ := create_fact_valid w s hname
  obtain ⟨e, he⟩ := Option.isSome_iff_exists.mp hsome
  refine ⟨?_, ?_, ?_⟩
  · simp [ruby_add, ruby_add_core, hres, hfail]
  · simp only [ruby_add, ruby_add_core, hres, hfail]
    simpa using congrArg (Option.map (fun p => p.2.value)) (find?_update_fact he _)
  · simp [ruby_add, ruby_add_core, hres, hok]

/-- Witness for C3: adding :Foo with an always-failing resolution definition
leaves the cached value nil and signals the tag; with a succeeding one, add
returns the handle foo. -/
theorem c3_witness :
    (((RValue.sym "Foo").is_string || (RValue.sym "Foo").is_symbol) = true) ∧
    ((ruby_add baseWorld emptyState (fun _ _ _ => Except.error 7)
        [RValue.sym "Foo", RValue.nil]).2 = .error (.resolutionError 7) ∧
     (((ruby_add baseWorld emptyState (fun _ _ _ => Except.error 7)
        [RValue.sym "Foo", RValue.nil]).1.facts.find?
          (fun p => p.1 == to_string (normalize (RValue.sym "Foo")))).map
            (fun p => p.2.value)) = some RValue.nil ∧
     (ruby_add baseWorld emptyState (fun _ _ fd => Except.ok fd)
        [RValue.sym "Foo", RValue.nil]).2
      = .ok (to_string (normalize (RValue.sym "Foo")))) :=
  ⟨by decide,
   c3_add_failure_forces_nil baseWorld emptyState (RValue.sym "Foo") RValue.nil 7
     (fun _ _ _ => Except.error 7) (fun _ _ fd => Except.ok fd) (fun _ _ fd => fd)
     (by decide) (fun _ _ _ => rfl) (fun _ _ _ => rfl)⟩

/-- C6 counterexample: with FACTERLIB naming /a twice and then a
non-canonicalizable path, the computed search path sequence is
["/a", "/a", ""]: it holds a duplicate entry, and the failed path leaves a
left-over blank entry instead of being excluded (std::remove_if's result is
discarded, so the vector is never shrunk), refuting both the
no-duplicates and the exclusion parts of the claim. -/
theorem c6_search_paths_counterexample :
    init_search_paths W6 [] = ["/a", "/a", ""] ∧
    ¬ (init_search_paths W6 []).Nodup := by
  exact ⟨by decide, by decide⟩

/-- C6 amended: after the search paths are recomputed, the sequence consists
of the successful canonicalizations of the candidate directories in order —
possibly with duplicates, since nothing deduplicates — followed by one
left-over blank entry per candidate that failed to canonicalize; the
sequence keeps the full candidate count rather than excluding failures. -/
theorem c6_search_paths_amended (w : World) (ps : List String)
    (hne : ∀ d c, w.canonical d = some c → c ≠ "") :
    init_search_paths w ps
      = (search_path_candidates w ps).filterMap w.canonical
        ++ List.replicate ((search_path_candidates w ps).length
            - ((search_path_candidates w ps).filterMap w.canonical).length) "" ∧
    (init_search_paths w ps).length = (search_path_candidates w ps).length := by
  have hf := filter_map_canon w (search_path_candidates w ps) hne
  constructor
  · simp only [init_search_paths, remove_if_empty, hf, List.length_map]
  · simp only [init_search_paths, remove_if_empty, hf, List.length_append,
      List.length_replicate, List.length_map]
    have := List.length_filterMap_le w.canonical (search_path_candidates w ps)
    omega

/-- Witness for the amended C6 in a world canonicalizing everything to /x. -/
theorem c6_witness :
    (init_search_paths W6a ["/p", "/q"]
      = (search_path_candidates W6a ["/p", "/q"]).filterMap W6a.canonical
        ++ List.replicate ((search_path_candidates W6a ["/p", "/q"]).length
            - ((search_path_candidates W6a ["/p", "/q"]).filterMap
                W6a.canonical).length) "" ∧
     (init_search_paths W6a ["/p", "/q"]).length
      = (search_path_candidates W6a ["/p", "/q"]).length) :=
  c6_search_paths_amended W6a ["/p", "/q"]
    (by intro d c h; simp [W6a, baseWorld] at h; subst h; decide)

/-- C7 counterexample: looking up the integer 123 through the fact entry
point completes without any type failure: it proceeds with the stringified
name "123" (checking the native collection under that key) and returns the
nil result, instead of failing with an ArgumentTypeError as the claim
requires for every non-symbol, non-string name. -/
theorem c7_lookup_type_check_counterexample :
    (ruby_fact baseWorld S7 (RValue.int 123)).result = .ok none ∧
    (ruby_fact baseWorld S7 (RValue.int 123)).effects
      = [Effect.collectionLookup "123"] := by
  exact ⟨rfl, by decide⟩

/-- C7 amended: only create_fact — reached from add and define_fact — fails
with a type error for a name that is neither a symbol nor a string; the
fact/value/[] lookup path performs no such check: the name passes through
normalization unchanged, is stringified, and the lookup proceeds normally,
returning the nil result when the stringified name is cached nowhere and
absent from the native collection. -/
theorem c7_lookup_type_check_amended (w : World) (s : ModuleState) (v : RValue)
    (hsym : v.is_symbol = false) (hstr : v.is_string = false)
    (hAll : s.loadedAll = true)
    (hmiss : s.facts.find? (fun p => p.1 == to_string v) = none)
    (hcoll : (populate_collection w s).collection.find?
        (fun p => p.1 == to_string v) = none) :
    (create_fact w s v).2
      = .error (.typeError "expected a String or Symbol for fact name") ∧
    (ruby_fact w s v).result = .ok none := by
  have hguard : (!v.is_string && !v.is_symbol) = true := by simp [hsym, hstr]
  have hnorm : normalize v = v := normalize_other hsym hstr
  constructor
  · simp [create_fact, hguard]
  · simp only [ruby_fact, load_fact, hnorm, hmiss, hAll, if_true, load_fact_tail,
      hcoll]
    have hpl : (populate_collection w s).loadedAll = true := by
      rw [populate_loadedAll]; exact hAll
    rw [load_facts_of_loadedAll w hpl]
    simp only [populate_facts, hmiss]

/-- Witness for the amended C7 at the integer name 123. -/
theorem c7_witness :
    ((RValue.int 123).is_symbol = false) ∧ ((RValue.int 123).is_string = false) ∧
    ((create_fact baseWorld S7 (RValue.int 123)).2
      = .error (.typeError "expected a String or Symbol for fact name") ∧
     (ruby_fact baseWorld S7 (RValue.int 123)).result = .ok none) :=
  ⟨rfl, rfl,
   c7_lookup_type_check_amended baseWorld S7 (RValue.int 123) rfl rfl rfl rfl rfl⟩

/-- C8 counterexample: with the all-loaded flag set and the fact memory
uncached but present in the native collection, the lookup still performs
the native-collection check (the trace holds a collection lookup, and the
lookup succeeds from the collection), refuting the claim that steps 3-5 —
including the native-collection check — are all skipped. -/
theorem c8_all_loaded_counterexample :
    S8.loadedAll = true ∧
    S8.facts.find? (fun p => p.1 == "memory") = none ∧
    (ruby_fact baseWorld S8 (RValue.str "memory")).effects
      = [Effect.collectionLookup "memory"] ∧
    (ruby_fact baseWorld S8 (RValue.str "memory")).result = .ok (some "memory") := by
  exact ⟨rfl, rfl, by decide, rfl⟩

/-- C8 amended: once the all-loaded flag is set, a lookup performs no
per-name directory scan, no full-discovery scan and no file execution —
its trace is empty on a cache hit and exactly one native-collection check
otherwise; the native-collection check of step 4 is still performed. -/
theorem c8_all_loaded_amended (w : World) (s : ModuleState) (name : RValue)
    (hAll : s.loadedAll = true) :
    (load_fact w s name).effects = [] ∨
    (load_fact w s name).effects
      = [Effect.collectionLookup (to_string (normalize name))] := by
  simp only [load_fact]
  cases hfind : s.facts.find? (fun p => p.1 == to_string (normalize name)) with
  | some e => simp [hfind]
  | none =>
    simp only [hfind, hAll, if_true]
    right
    simp only [load_fact_tail]
    cases hc : (populate_collection w s).collection.find?
        (fun p => p.1 == to_string (normalize name)) with
    | some e =>
      simp only [hc]
      cases hcf : (create_fact w (populate_collection w s) (normalize name)).2 <;>
        simp [hcf]
    | none =>
      have hpl : (populate_collection w s).loadedAll = true := by
        rw [populate_loadedAll]; exact hAll
      simp only [hc, load_facts_of_loadedAll w hpl]
      cases h2 : (populate_collection w s).facts.find?
          (fun p => p.1 == to_string (normalize name)) <;> simp [h2]

/-- Witness for the amended C8 at an uncached name under the all-loaded
flag. -/
theorem c8_witness :
    S8.loadedAll = true ∧
    ((load_fact baseWorld S8 (RValue.str "cpu")).effects = [] ∨
     (load_fact baseWorld S8 (RValue.str "cpu")).effects
      = [Effect.collectionLookup (to_string (normalize (RValue.str "cpu")))]) :=
  ⟨rfl, c8_all_loaded_amended baseWorld S8 (RValue.str "cpu") rfl⟩

end Facter
